import Mathlib

/-!
Verification of the resource reconciliation subsystem of identity-tools-cli.

Shallow embedding of `iamctl/pkg/applications/applicationUtils.go` and of the
identity-provider counterpart (`idpUtils`).  External collaborators that the
spec places out of scope (the HTTP transport `utils.SendGetListRequest`, the
YAML/JSON unmarshalling libraries, file reads, the `utils` constant tables)
are modelled as explicit parameters: a trace of transport results, decode
oracles, and configuration values threaded into each operation.
-/

namespace Iamctl

/-! ## Data model (applicationUtils.go lines 36-60, idp file lines 30-43) -/

/-- Go struct `Application {Id, Name string}`. -/
structure Application where
  Id : String
  Name : String
deriving DecidableEq, Repr

/-- Go struct `AppList {AppCount int; Applications []Application}`. -/
structure AppList where
  AppCount : Int
  Applications : List Application
deriving DecidableEq, Repr

/-- Go struct `identityProvider {Id, Name string}`. -/
structure identityProvider where
  Id : String
  Name : String
deriving DecidableEq, Repr

/-- Go struct `idpList {IdpCount int; IdentityProviders []identityProvider}`. -/
structure idpList where
  IdpCount : Int
  IdentityProviders : List identityProvider
deriving DecidableEq, Repr

/-- Go struct nested in `AuthConfig`: one inbound-authentication-request entry
with `InboundAuthType`, `InboundAuthKey` and the protocol block holding
`OauthConsumerSecret`. -/
structure InboundRequestConfig where
  InboundAuthType : String
  InboundAuthKey : String
  OauthConsumerSecret : String
deriving DecidableEq, Repr

/-- Go struct `AuthConfig`: the `inboundAuthenticationConfig` block as a list of
inbound-authentication-request entries. -/
structure AuthConfig where
  InboundAuthenticationRequestConfigs : List InboundRequestConfig
deriving DecidableEq, Repr

/-! ## External collaborator model: YAML unmarshalling

`yaml.Unmarshal` (gopkg.in/yaml.v2) is out of scope per the spec; it is
modelled as an oracle `String → Except String AuthConfig` passed to each
operation that parses a serialized config. -/

/-- Type of the YAML unmarshalling oracle for `AuthConfig`. -/
abbrev YamlOracle := String → Except String AuthConfig

/-- `unmarshalAuthConfig` (applicationUtils.go lines 162-169): wraps a failed
unmarshal in the message `failed to unmarshal auth config: ...`. -/
def unmarshalAuthConfig (yamlUnmarshal : YamlOracle) (data : String) :
    Except String AuthConfig :=
  match yamlUnmarshal data with
  | Except.error e => Except.error ("failed to unmarshal auth config: " ++ e)
  | Except.ok config => Except.ok config

/-- Modelled from the spec: the OAuth2 marker constant `utils.OAUTH2`
(the `utils` package is not under src/); the spec compares the lower-cased
`authType` with this marker. -/
def OAUTH2 : String := "oauth2"

/-- Model of Go `strings.ToLower` restricted to the ASCII letters, which is
the exhaustive case for comparisons against the all-ASCII marker `"oauth2"`:
only `O A U T H` lower-case (in full Unicode as well) to the marker's
letters. -/
def lowerChar (c : Char) : Char :=
  if 'A' ≤ c ∧ c ≤ 'Z' then Char.ofNat (c.toNat + 32) else c

/-- Lower-casing of a whole string (model of `strings.ToLower`). -/
def lowerStr (s : String) : String :=
  String.mk (s.data.map lowerChar)

/-- `isOauthApp` (applicationUtils.go lines 147-160): parse, then scan all
inbound-authentication-request entries for one whose lower-cased
`InboundAuthType` equals the OAuth2 marker. -/
def isOauthApp (yamlUnmarshal : YamlOracle) (fileData : String) :
    Except String Bool :=
  match unmarshalAuthConfig yamlUnmarshal fileData with
  | Except.error e => Except.error e
  | Except.ok config =>
      Except.ok (config.InboundAuthenticationRequestConfigs.any
        (fun requestConfig => lowerStr requestConfig.InboundAuthType == OAUTH2))

/-- `isOauthSecretGiven` (applicationUtils.go lines 204-219): same traversal as
`isOauthApp`, but true only when an OAuth2 entry has a non-empty
`OauthConsumerSecret`. -/
def isOauthSecretGiven (yamlUnmarshal : YamlOracle) (modifiedFileData : String) :
    Except String Bool :=
  match unmarshalAuthConfig yamlUnmarshal modifiedFileData with
  | Except.error e => Except.error e
  | Except.ok config =>
      Except.ok (config.InboundAuthenticationRequestConfigs.any
        (fun requestConfig =>
          lowerStr requestConfig.InboundAuthType == OAUTH2 &&
            requestConfig.OauthConsumerSecret != ""))

/-! ## Protected-resource guard -/

/-- Go `os.FileInfo` restricted to what `isToolMgtApp` reads: the file name. -/
structure FileInfo where
  Name : String
deriving DecidableEq, Repr

/-- Model of `filepath.Join` for the two-argument use in `isToolMgtApp`
(path cleaning is immaterial to the claims). -/
def joinPath (dir file : String) : String := dir ++ "/" ++ file

/-- Type of the file-read oracle modelling `ioutil.ReadFile`. -/
abbrev ReadOracle := String → Except String String

/-- `isToolMgtApp` (applicationUtils.go lines 181-202): read the file, parse it
as an `AuthConfig`, and report whether some entry's `InboundAuthKey` equals the
configured client id (`utils.SERVER_CONFIGS.ClientId`, threaded here as the
`clientId` argument).  The informational log line on a match is not modelled. -/
def isToolMgtApp (readFile : ReadOracle) (yamlUnmarshal : YamlOracle)
    (clientId : String) (file : FileInfo) (importFilePath : String) :
    Except String Bool :=
  match readFile (joinPath importFilePath file.Name) with
  | Except.error e => Except.error ("failed to read file: " ++ e)
  | Except.ok fileData =>
      match unmarshalAuthConfig yamlUnmarshal fileData with
      | Except.error e => Except.error e
      | Except.ok config =>
          Except.ok (config.InboundAuthenticationRequestConfigs.any
            (fun requestConfig => requestConfig.InboundAuthKey == clientId))

/-! ## Keyword resolver -/

/-- Model of a keyword mapping `map[string]interface{}` (value type immaterial
to the claims). -/
abbrev KwMap := List (String × String)

/-- Model of the per-resource-type override tables and the global default
mapping in `utils.KEYWORD_CONFIGS`; a Go nil map is `none`. -/
structure KeywordConfigs where
  KeywordMappings : KwMap
  ApplicationConfigs : Option (List (String × KwMap))
  IdpConfigs : Option (List (String × KwMap))
deriving DecidableEq, Repr

/-- Type of `utils.ResolveAdvancedKeywordMapping` (out of scope; modelled as a
parameter). -/
abbrev ResolveOracle := String → List (String × KwMap) → KwMap

/-- `getAppKeywordMapping` (applicationUtils.go lines 139-145). -/
def getAppKeywordMapping (resolveAdvanced : ResolveOracle)
    (keywordConfigs : KeywordConfigs) (appName : String) : KwMap :=
  match keywordConfigs.ApplicationConfigs with
  | some table => resolveAdvanced appName table
  | none => keywordConfigs.KeywordMappings

/-- `getIdpKeywordMapping` (idp file lines 121-127). -/
def getIdpKeywordMapping (resolveAdvanced : ResolveOracle)
    (keywordConfigs : KeywordConfigs) (idpName : String) : KwMap :=
  match keywordConfigs.IdpConfigs with
  | some table => resolveAdvanced idpName table
  | none => keywordConfigs.KeywordMappings

/-! ## Resource lister

`utils.SendGetListRequest` is modelled by a trace of transport results consumed
in call order, mirroring Go's `(resp *http.Response, err error)` pair; the
count argument of every call is recorded.  `ioutil.ReadAll` on the body is
modelled by the `Body` field, `json.Unmarshal` by decode oracles. -/

/-- The reachable part of an HTTP response: status code and the outcome of
reading the body. -/
structure Response where
  StatusCode : Int
  Body : Except String String
deriving Repr

/-- One result of `utils.SendGetListRequest`: Go's `(resp, err)` pair. -/
abbrev SendResult := Option Response × Option String

/-- State threaded through the lister: the remaining transport trace and the
log of `(resourceType, count)` arguments passed to `SendGetListRequest`. -/
structure ListerState where
  trace : List SendResult
  calls : List (String × Int)
deriving Repr

/-- Modelled from the spec: the resource-type constant `utils.APPLICATIONS`
(the `utils` package is not under src/). -/
def APPLICATIONS : String := "applications"

/-- Modelled from the spec: the resource-type constant
`utils.IDENTITY_PROVIDERS` (the `utils` package is not under src/). -/
def IDENTITY_PROVIDERS : String := "identity-providers"

/-- Consume the next transport result and record the call; an exhausted trace
behaves as a transport error. -/
def sendGetListRequest (resourceType : String) (count : Int)
    (st : ListerState) : SendResult × ListerState :=
  match st.trace with
  | [] => ((none, some "no response"), ⟨[], st.calls ++ [(resourceType, count)]⟩)
  | r :: rs => (r, ⟨rs, st.calls ++ [(resourceType, count)]⟩)

/-- How an operation of the lister terminates: a normal return, a nil-pointer
dereference of the response (Go run-time fault), or `log.Fatalln` (process
exit, deferred closes do not run). -/
inductive Outcome (α : Type) where
  | ok (a : α)
  | nilDeref
  | fatal (msg : String)
deriving DecidableEq, Repr

/-- Decode oracles (`json.Unmarshal`) and the status classification table
(`utils.ErrorCodes`, modelled from the spec: the `utils` package is not under
src/). -/
structure ListerEnv where
  errorCodes : Int → Option String
  decodeAppList : String → Except String AppList
  decodeIdpList : String → Except String idpList

/-- `getTotalAppCount` (applicationUtils.go lines 110-137).  Returns Go's
`(count, err)` pair; on every failure the count is `-1` and the error is
populated.  A nil response with a nil error would fault in
`defer resp.Body.Close()`. -/
def getTotalAppCount (env : ListerEnv) (st : ListerState) :
    Outcome (Int × Option String) × ListerState :=
  match sendGetListRequest APPLICATIONS (-1) st with
  | ((_, some e), st') =>
      (Outcome.ok (-1, some ("failed to retrieve available app list. " ++ e)), st')
  | ((none, none), st') => (Outcome.nilDeref, st')
  | ((some resp, none), st') =>
      if resp.StatusCode == 200 then
        match resp.Body with
        | Except.error e =>
            (Outcome.ok (-1, some ("error when reading the retrived app list. " ++ e)), st')
        | Except.ok body =>
            match env.decodeAppList body with
            | Except.error e =>
                (Outcome.ok (-1, some ("error when unmarshalling the retrived app list. " ++ e)), st')
            | Except.ok list => (Outcome.ok (list.AppCount, none), st')
      else
        match env.errorCodes resp.StatusCode with
        | some msg =>
            (Outcome.ok (-1, some ("error while retrieving app count. Status code: " ++
              toString resp.StatusCode ++ ", Error: " ++ msg)), st')
        | none => (Outcome.ok (-1, some "error while retrieving application count"), st')

/-- `getAppList` (applicationUtils.go lines 72-108).  No error return value: a
count failure is logged and the count `-1` is reused for the list query; a
transport error on the list query is logged and then
`defer resp.Body.Close()` dereferences the nil response; a non-200 status is
logged and the nil slice is returned; read/decode failures `log.Fatalln`.
Returns the outcome, the log lines, and the final state. -/
def getAppList (env : ListerEnv) (st : ListerState) :
    Outcome (List Application) × List String × ListerState :=
  match getTotalAppCount env st with
  | (Outcome.nilDeref, st') => (Outcome.nilDeref, [], st')
  | (Outcome.fatal m, st') => (Outcome.fatal m, [], st')
  | (Outcome.ok (totalAppCount, countErr), st') =>
      let logs0 : List String :=
        match countErr with
        | some e =>
            ["Error while retrieving application count. Retrieving only the default count. " ++ e]
        | none => []
      match sendGetListRequest APPLICATIONS totalAppCount st' with
      | ((respOpt, errOpt), st2) =>
          let logs1 : List String :=
            logs0 ++ (match errOpt with
              | some e => ["Error while retrieving application list " ++ e]
              | none => [])
          match respOpt with
          | none => (Outcome.nilDeref, logs1, st2)
          | some resp =>
              if resp.StatusCode == 200 then
                match resp.Body with
                | Except.error e => (Outcome.fatal e, logs1, st2)
                | Except.ok body =>
                    match env.decodeAppList body with
                    | Except.error e => (Outcome.fatal e, logs1, st2)
                    | Except.ok list => (Outcome.ok list.Applications, logs1, st2)
              else
                match env.errorCodes resp.StatusCode with
                | some msg => (Outcome.ok [], logs1 ++ [msg], st2)
                | none =>
                    (Outcome.ok [], logs1 ++ ["Error while retrieving application list"], st2)

/-- `getTotalIdpCount` (idp file lines 78-105); mirrors `getTotalAppCount`. -/
def getTotalIdpCount (env : ListerEnv) (st : ListerState) :
    Outcome (Int × Option String) × ListerState :=
  match sendGetListRequest IDENTITY_PROVIDERS (-1) st with
  | ((_, some e), st') =>
      (Outcome.ok (-1, some ("failed to retrieve available IDP list. " ++ e)), st')
  | ((none, none), st') => (Outcome.nilDeref, st')
  | ((some resp, none), st') =>
      if resp.StatusCode == 200 then
        match resp.Body with
        | Except.error e =>
            (Outcome.ok (-1, some ("error when reading the retrived IDP list. " ++ e)), st')
        | Except.ok body =>
            match env.decodeIdpList body with
            | Except.error e =>
                (Outcome.ok (-1, some ("error when unmarshalling the retrived IDP list. " ++ e)), st')
            | Except.ok list => (Outcome.ok (list.IdpCount, none), st')
      else
        match env.errorCodes resp.StatusCode with
        | some msg =>
            (Outcome.ok (-1, some ("error while retrieving IDP count. Status code: " ++
              toString resp.StatusCode ++ ", Error: " ++ msg)), st')
        | none => (Outcome.ok (-1, some "error while retrieving identity provider count"), st')

/-- `getIdpList` (idp file lines 45-76).  Unlike `getAppList` it has an error
return: count failure is logged and `-1` reused, but every list-query failure
is returned as a wrapped error; only a nil response paired with a nil error
would fault in the deferred close. -/
def getIdpList (env : ListerEnv) (st : ListerState) :
    Outcome (Except String (List identityProvider)) × List String × ListerState :=
  match getTotalIdpCount env st with
  | (Outcome.nilDeref, st') => (Outcome.nilDeref, [], st')
  | (Outcome.fatal m, st') => (Outcome.fatal m, [], st')
  | (Outcome.ok (idpCount, countErr), st') =>
      let logs0 : List String :=
        match countErr with
        | some e =>
            ["Error: when retrieving IDP count. Retrieving only the default count. " ++ e]
        | none => []
      match sendGetListRequest IDENTITY_PROVIDERS idpCount st' with
      | ((_, some e), st2) =>
          (Outcome.ok (Except.error ("failed to retrieve available IDP list. " ++ e)), logs0, st2)
      | ((none, none), st2) => (Outcome.nilDeref, logs0, st2)
      | ((some resp, none), st2) =>
          if resp.StatusCode == 200 then
            match resp.Body with
            | Except.error e =>
                (Outcome.ok (Except.error ("error when reading the retrived IDP list. " ++ e)), logs0, st2)
            | Except.ok body =>
                match env.decodeIdpList body with
                | Except.error e =>
                    (Outcome.ok (Except.error ("error when unmarshalling the retrived IDP list. " ++ e)), logs0, st2)
                | Except.ok list =>
                    (Outcome.ok (Except.ok list.IdentityProviders), logs0, st2)
          else
            match env.errorCodes resp.StatusCode with
            | some msg =>
                (Outcome.ok (Except.error ("error while retrieving IDP list. Status code: " ++
                  toString resp.StatusCode ++ ", Error: " ++ msg)), logs0, st2)
            | none =>
                (Outcome.ok (Except.error "error while retrieving identity provider list"), logs0, st2)

/-- `getDeployedIdpNames` (idp file lines 107-119): every error from
`getIdpList` becomes the empty name list; on success the names are collected
in list order. -/
def getDeployedIdpNames (env : ListerEnv) (st : ListerState) :
    Outcome (List String) × ListerState :=
  match getIdpList env st with
  | (Outcome.ok (Except.error _), _, st') => (Outcome.ok [], st')
  | (Outcome.ok (Except.ok idps), _, st') =>
      (Outcome.ok (idps.map (fun idp => idp.Name)), st')
  | (Outcome.nilDeref, _, st') => (Outcome.nilDeref, st')
  | (Outcome.fatal m, _, st') => (Outcome.fatal m, st')

/-! ## Secret masker

`maskOAuthConsumerSecret` (applicationUtils.go lines 171-179) applies Go's
`regexp.ReplaceAllString` with the pattern
`(?m)(^\s*oauthConsumerSecret:\s*)null\s*$` and replacement `${1}` ++ mask.

The embedding below reproduces RE2's semantics for this concrete pattern:
`^`/`$` match at line boundaries, `\s` is `[\t\n\f\r ]` (so a whitespace run
may cross line boundaries), each `\s*` is greedy and — because every literal
in the pattern starts with a non-whitespace character — deterministically
consumes a maximal whitespace run, except the final `\s*$` which consumes up
to the last position in the run that is an end of line.  Matches are found
leftmost and non-overlapping; since `^` anchors every match at a line start
and group 1 reproduces all consumed text up to the value verbatim, the scan
below (attempt at each line start, resume after the match) computes the same
output string. -/

/-- RE2's `\s`: `[\t\n\f\r ]`. -/
def isWs (c : Char) : Bool :=
  c == ' ' || c == '\t' || c == '\n' || c == '\x0c' || c == '\r'

/-- The literal field label of the pattern. -/
def secretLabel : List Char := "oauthConsumerSecret:".data

/-- The literal value of the pattern. -/
def nullLit : List Char := "null".data

/-- Modelled from the spec: the fixed masking token
`utils.SENSITIVE_FIELD_MASK` (the `utils` package is not under src/). -/
def maskTok : List Char := "********".data

/-- Boolean list-prefix test (the matcher compares literals by characters). -/
def hasPre : List Char → List Char → Bool
  | [], _ => true
  | _ :: _, [] => false
  | a :: as, b :: bs => a == b && hasPre as bs

/-- Split a list at its last newline: `some (a, '\n' :: b)` with
`w = a ++ '\n' :: b` and `b` newline-free, or `none` when `w` has no
newline. -/
def splitLastNl : List Char → Option (List Char × List Char)
  | [] => none
  | c :: cs =>
      match splitLastNl cs with
      | some (a, r) => some (c :: a, r)
      | none => if c = '\n' then some ([], c :: cs) else none

/-- The trailing `\s*$` of the pattern, applied after the literal `null`:
greedily consume whitespace up to the last position that is an end of line
(end of text, or just before a `'\n'`); returns the unconsumed remainder. -/
def tryTail (u : List Char) : Option (List Char) :=
  if (u.dropWhile isWs).isEmpty then some []
  else
    match splitLastNl (u.takeWhile isWs) with
    | some (_, r) => some (r ++ u.dropWhile isWs)
    | none => none

/-- The `\s*null\s*$` part of the pattern, applied after the label: returns
the whitespace consumed before `null` (part of group 1) and the remainder
after the match. -/
def tryVal (u : List Char) : Option (List Char × List Char) :=
  if hasPre nullLit (u.dropWhile isWs) then
    match tryTail ((u.dropWhile isWs).drop nullLit.length) with
    | some rest => some (u.takeWhile isWs, rest)
    | none => none
  else none

/-- A match attempt of the whole pattern at a line start: returns group 1
(whitespace, label, whitespace) and the remainder after the match. -/
def tryMatch (s : List Char) : Option (List Char × List Char) :=
  if hasPre secretLabel (s.dropWhile isWs) then
    match tryVal ((s.dropWhile isWs).drop secretLabel.length) with
    | some (w2, rest) => some (s.takeWhile isWs ++ secretLabel ++ w2, rest)
    | none => none
  else none

/-- Split a list at its first newline: `some (a ++ ['\n'], b)` with the first
component ending in the newline, or `none` when there is none. -/
def splitFirstNl : List Char → Option (List Char × List Char)
  | [] => none
  | c :: cs =>
      if c = '\n' then some ([c], cs)
      else
        match splitFirstNl cs with
        | some (a, b) => some (c :: a, b)
        | none => none

/-- Fuelled scan of `ReplaceAllString`: at a line start, attempt a match; on
success emit group 1 and the mask and resume after the match, otherwise copy
the line verbatim; in both cases continue at the next line start.  The fuel
only serves structural recursion; `goLine` supplies enough of it. -/
def goLineF : Nat → List Char → List Char
  | 0, s => s
  | fuel + 1, s =>
      match tryMatch s with
      | some (g1, rest) =>
          match splitFirstNl rest with
          | some (a, b) => g1 ++ maskTok ++ a ++ goLineF fuel b
          | none => g1 ++ maskTok ++ rest
      | none =>
          match splitFirstNl s with
          | some (a, b) => a ++ goLineF fuel b
          | none => s

/-- The replace-all scan starting at a line start. -/
def goLine (s : List Char) : List Char := goLineF (s.length + 1) s

/-- The scan from a mid-line position: copy up to and including the next
newline, then continue at the line start. -/
def goSkip (s : List Char) : List Char :=
  match splitFirstNl s with
  | some (a, b) => a ++ goLine b
  | none => s

/-- `maskOAuthConsumerSecret` (applicationUtils.go lines 171-179). -/
def maskOAuthConsumerSecret (fileContent : String) : String :=
  String.mk (goLine fileContent.data)

/-- No pattern match starts strictly inside the current line: at every
position following a `'\n'`, the match attempt fails. -/
def noMatchS : List Char → Bool
  | [] => true
  | c :: cs => (if c = '\n' then (tryMatch cs).isNone else true) && noMatchS cs

/-- No pattern match anywhere from a line start: the attempt here fails and
so does every later one. -/
def noMatchL (s : List Char) : Bool :=
  (tryMatch s).isNone && noMatchS s

/-- A list of characters without a newline. -/
def nlFree (l : List Char) : Bool := l.all (fun c => !(c == '\n'))

/-- A list of whitespace characters only. -/
def wsOnly (l : List Char) : Bool := l.all isWs

/-- Split an input into its lines (separators removed). -/
def splitLines : List Char → List (List Char)
  | [] => [[]]
  | c :: cs =>
      if c = '\n' then [] :: splitLines cs
      else
        match splitLines cs with
        | l :: ls => (c :: l) :: ls
        | [] => [[c]]

/-- Modelled from the spec's words (§4.4): a single line matches the claimed
per-line pattern when it is optional whitespace, the literal label
`oauthConsumerSecret:`, optional whitespace, the literal `null`, and optional
trailing whitespace up to the end of the line. -/
def specLineMatch (line : List Char) : Bool :=
  hasPre secretLabel (line.dropWhile isWs) &&
    (let r3 := ((line.dropWhile isWs).drop secretLabel.length).dropWhile isWs
     hasPre nullLit r3 && (r3.drop nullLit.length).all isWs)

/-! ## Theorems: classifiers, guard, keyword resolver, lister -/

/-- C6: for every serialized config that parses successfully, `isOauthApp`
returns `true` iff at least one inbound-authentication-request entry has an
`authType` whose lower-casing equals `"oauth2"`; zero entries or no matching
entry yields `(false, nil)` and never an error; a non-nil error is returned
only when parsing itself fails. -/
theorem isOauthApp_spec (yamlUnmarshal : YamlOracle) (s : String) :
    (∀ config, yamlUnmarshal s = Except.ok config →
      (isOauthApp yamlUnmarshal s = Except.ok true ↔
        ∃ r ∈ config.InboundAuthenticationRequestConfigs,
          lowerStr r.InboundAuthType = OAUTH2) ∧
      (config.InboundAuthenticationRequestConfigs = [] →
        isOauthApp yamlUnmarshal s = Except.ok false)) ∧
    (∀ e, yamlUnmarshal s = Except.error e →
      isOauthApp yamlUnmarshal s =
        Except.error ("failed to unmarshal auth config: " ++ e)) ∧
    (∀ msg, isOauthApp yamlUnmarshal s = Except.error msg →
      ∃ e, yamlUnmarshal s = Except.error e) := by
  refine ⟨?_, ?_, ?_⟩
  · intro config h
    constructor
    · simp [isOauthApp, unmarshalAuthConfig, h, List.any_eq_true]
    · intro hnil
      simp [isOauthApp, unmarshalAuthConfig, h, hnil]
  · intro e h
    simp [isOauthApp, unmarshalAuthConfig, h]
  · intro msg h
    cases hy : yamlUnmarshal s with
    | ok config => simp [isOauthApp, unmarshalAuthConfig, hy] at h
    | error e => exact ⟨e, rfl⟩

/-- Witness for C6 at a concrete oracle and config. -/
theorem isOauthApp_spec_witness :
    isOauthApp (fun _ => Except.ok ⟨[⟨"OAuth2", "k", ""⟩]⟩) "cfg" = Except.ok true ∧
    isOauthApp (fun _ => Except.ok ⟨[]⟩) "cfg" = Except.ok false ∧
    isOauthApp (fun _ => Except.error "bad yaml") "cfg" =
      Except.error "failed to unmarshal auth config: bad yaml" := by
  refine ⟨?_, ?_, ?_⟩
  · exact ((isOauthApp_spec (fun _ => Except.ok ⟨[⟨"OAuth2", "k", ""⟩]⟩) "cfg").1
      ⟨[⟨"OAuth2", "k", ""⟩]⟩ rfl).1.mpr ⟨⟨"OAuth2", "k", ""⟩, by simp, by decide⟩
  · exact ((isOauthApp_spec (fun _ => Except.ok ⟨[]⟩) "cfg").1 ⟨[]⟩ rfl).2 rfl
  · exact (isOauthApp_spec (fun _ => Except.error "bad yaml") "cfg").2.1 "bad yaml" rfl

/-- C9: whenever `isOauthSecretGiven` reports `(true, nil)` for an input,
`isOauthApp` reports `(true, nil)` for that same input and parse oracle: the
secret check is nested inside the same case-insensitive `authType` match. -/
theorem isOauthSecretGiven_implies_isOauthApp (yamlUnmarshal : YamlOracle)
    (s : String) (h : isOauthSecretGiven yamlUnmarshal s = Except.ok true) :
    isOauthApp yamlUnmarshal s = Except.ok true := by
  cases hy : yamlUnmarshal s with
  | error e => simp [isOauthSecretGiven, unmarshalAuthConfig, hy] at h
  | ok config =>
    simp only [isOauthSecretGiven, unmarshalAuthConfig, hy, Except.ok.injEq] at h
    simp only [isOauthApp, unmarshalAuthConfig, hy, Except.ok.injEq]
    rw [List.any_eq_true] at h
    obtain ⟨r, hr, hcond⟩ := h
    rw [Bool.and_eq_true] at hcond
    exact List.any_eq_true.mpr ⟨r, hr, hcond.1⟩

/-- Witness for C9 at a concrete oracle and config. -/
theorem isOauthSecretGiven_implies_isOauthApp_witness :
    isOauthApp (fun _ => Except.ok ⟨[⟨"oauth2", "k", "s3cr3t"⟩]⟩) "cfg" =
      Except.ok true := by
  exact isOauthSecretGiven_implies_isOauthApp
    (fun _ => Except.ok ⟨[⟨"oauth2", "k", "s3cr3t"⟩]⟩) "cfg" (by rfl)

/-- C2: `isToolMgtApp` returns `true` iff some inbound-authentication-request
entry of the parsed file has `authKey` exactly equal to the configured client
id, and a read or parse failure is returned as a non-nil error, never as a
silent `false`. -/
theorem isToolMgtApp_spec (readFile : ReadOracle) (yamlUnmarshal : YamlOracle)
    (clientId : String) (file : FileInfo) (importFilePath : String) :
    (∀ data config, readFile (joinPath importFilePath file.Name) = Except.ok data →
      yamlUnmarshal data = Except.ok config →
      (isToolMgtApp readFile yamlUnmarshal clientId file importFilePath =
          Except.ok true ↔
        ∃ r ∈ config.InboundAuthenticationRequestConfigs,
          r.InboundAuthKey = clientId)) ∧
    (∀ e, readFile (joinPath importFilePath file.Name) = Except.error e →
      isToolMgtApp readFile yamlUnmarshal clientId file importFilePath =
        Except.error ("failed to read file: " ++ e)) ∧
    (∀ data e, readFile (joinPath importFilePath file.Name) = Except.ok data →
      yamlUnmarshal data = Except.error e →
      isToolMgtApp readFile yamlUnmarshal clientId file importFilePath =
        Except.error ("failed to unmarshal auth config: " ++ e)) := by
  refine ⟨?_, ?_, ?_⟩
  · intro data config hr hy
    simp [isToolMgtApp, unmarshalAuthConfig, hr, hy, List.any_eq_true]
  · intro e hr
    simp [isToolMgtApp, hr]
  · intro data e hr hy
    simp [isToolMgtApp, unmarshalAuthConfig, hr, hy]

/-- Witness for C2 at a concrete read and parse oracle. -/
theorem isToolMgtApp_spec_witness :
    isToolMgtApp (fun _ => Except.ok "filedata")
      (fun _ => Except.ok ⟨[⟨"oauth2", "myClientId", ""⟩]⟩) "myClientId"
      ⟨"app.yml"⟩ "/imports" = Except.ok true ∧
    isToolMgtApp (fun _ => Except.error "no such file")
      (fun _ => Except.ok ⟨[]⟩) "myClientId" ⟨"app.yml"⟩ "/imports" =
      Except.error "failed to read file: no such file" := by
  constructor
  · exact ((isToolMgtApp_spec (fun _ => Except.ok "filedata")
      (fun _ => Except.ok ⟨[⟨"oauth2", "myClientId", ""⟩]⟩) "myClientId"
      ⟨"app.yml"⟩ "/imports").1 "filedata" ⟨[⟨"oauth2", "myClientId", ""⟩]⟩
      rfl rfl).mpr ⟨⟨"oauth2", "myClientId", ""⟩, by simp, rfl⟩
  · exact (isToolMgtApp_spec (fun _ => Except.error "no such file")
      (fun _ => Except.ok ⟨[]⟩) "myClientId" ⟨"app.yml"⟩ "/imports").2.1
      "no such file" rfl

/-- C8: for every resource name, the keyword resolvers return the global
default mapping unchanged when no per-resource-type override table is
configured, and delegate to the advanced resolution routine with the resource
name as selector key when an override table exists. -/
theorem keywordMapping_spec (resolveAdvanced : ResolveOracle)
    (keywordConfigs : KeywordConfigs) (name : String) :
    (keywordConfigs.ApplicationConfigs = none →
      getAppKeywordMapping resolveAdvanced keywordConfigs name =
        keywordConfigs.KeywordMappings) ∧
    (∀ table, keywordConfigs.ApplicationConfigs = some table →
      getAppKeywordMapping resolveAdvanced keywordConfigs name =
        resolveAdvanced name table) ∧
    (keywordConfigs.IdpConfigs = none →
      getIdpKeywordMapping resolveAdvanced keywordConfigs name =
        keywordConfigs.KeywordMappings) ∧
    (∀ table, keywordConfigs.IdpConfigs = some table →
      getIdpKeywordMapping resolveAdvanced keywordConfigs name =
        resolveAdvanced name table) := by
  refine ⟨?_, ?_, ?_, ?_⟩
  · intro h; simp [getAppKeywordMapping, h]
  · intro table h; simp [getAppKeywordMapping, h]
  · intro h; simp [getIdpKeywordMapping, h]
  · intro table h; simp [getIdpKeywordMapping, h]

/-- Witness for C8 at concrete configurations. -/
theorem keywordMapping_spec_witness :
    getAppKeywordMapping (fun n _ => [("sel", n)])
      ⟨[("k", "v")], none, none⟩ "myApp" = [("k", "v")] ∧
    getAppKeywordMapping (fun n _ => [("sel", n)])
      ⟨[("k", "v")], some [("myApp", [("o", "w")])], none⟩ "myApp" =
      [("sel", "myApp")] := by
  constructor
  · exact (keywordMapping_spec (fun n _ => [("sel", n)])
      ⟨[("k", "v")], none, none⟩ "myApp").1 rfl
  · exact (keywordMapping_spec (fun n _ => [("sel", n)])
      ⟨[("k", "v")], some [("myApp", [("o", "w")])], none⟩ "myApp").2.1
      [("myApp", [("o", "w")])] rfl

/-- C10: `getDeployedIdpNames` never reports failure: whenever `getIdpList`
returns an error it returns the empty name list, silently discarding the
error; on success it returns the `Name` of each listed identity provider in
list order. -/
theorem getDeployedIdpNames_spec (env : ListerEnv) (st : ListerState) :
    (∀ e logs st', getIdpList env st = (Outcome.ok (Except.error e), logs, st') →
      getDeployedIdpNames env st = (Outcome.ok [], st')) ∧
    (∀ idps logs st',
      getIdpList env st = (Outcome.ok (Except.ok idps), logs, st') →
      getDeployedIdpNames env st =
        (Outcome.ok (idps.map (fun idp => idp.Name)), st')) := by
  constructor
  · intro e logs st' h
    simp [getDeployedIdpNames, h]
  · intro idps logs st' h
    simp [getDeployedIdpNames, h]

/-- Witness for C10: a trace whose list query fails yields the empty name
list, a successful trace yields the names in order. -/
theorem getDeployedIdpNames_spec_witness :
    getDeployedIdpNames
      ⟨fun _ => none, fun _ => Except.ok ⟨0, []⟩,
        fun _ => Except.ok ⟨2, [⟨"j1", "p1"⟩, ⟨"j2", "p2"⟩]⟩⟩
      ⟨[(none, some "boom"), (none, some "womp")], []⟩ =
      (Outcome.ok [], ⟨[], [(IDENTITY_PROVIDERS, -1), (IDENTITY_PROVIDERS, -1)]⟩) ∧
    getDeployedIdpNames
      ⟨fun _ => none, fun _ => Except.ok ⟨0, []⟩,
        fun _ => Except.ok ⟨2, [⟨"j1", "p1"⟩, ⟨"j2", "p2"⟩]⟩⟩
      ⟨[(some ⟨200, Except.ok "c"⟩, none), (some ⟨200, Except.ok "l"⟩, none)], []⟩ =
      (Outcome.ok ["p1", "p2"],
        ⟨[], [(IDENTITY_PROVIDERS, -1), (IDENTITY_PROVIDERS, 2)]⟩) := by
  constructor
  · exact (getDeployedIdpNames_spec
      ⟨fun _ => none, fun _ => Except.ok ⟨0, []⟩,
        fun _ => Except.ok ⟨2, [⟨"j1", "p1"⟩, ⟨"j2", "p2"⟩]⟩⟩
      ⟨[(none, some "boom"), (none, some "womp")], []⟩).1
      "failed to retrieve available IDP list. womp"
      ["Error: when retrieving IDP count. Retrieving only the default count. failed to retrieve available IDP list. boom"]
      ⟨[], [(IDENTITY_PROVIDERS, -1), (IDENTITY_PROVIDERS, -1)]⟩ rfl
  · exact (getDeployedIdpNames_spec
      ⟨fun _ => none, fun _ => Except.ok ⟨0, []⟩,
        fun _ => Except.ok ⟨2, [⟨"j1", "p1"⟩, ⟨"j2", "p2"⟩]⟩⟩
      ⟨[(some ⟨200, Except.ok "c"⟩, none), (some ⟨200, Except.ok "l"⟩, none)], []⟩).2
      [⟨"j1", "p1"⟩, ⟨"j2", "p2"⟩] []
      ⟨[], [(IDENTITY_PROVIDERS, -1), (IDENTITY_PROVIDERS, 2)]⟩ rfl

/-- C1: for both resource types, when the count query fails, the list
operation logs the failure and issues the list query with the fall-back count
`-1` rather than propagating the error, and when that list query succeeds
with N items, exactly those N items are returned with no error. -/
theorem getList_countFailure_bestEffort (env : ListerEnv) (e body : String)
    (alist : AppList) (ilist : idpList)
    (hA : env.decodeAppList body = Except.ok alist)
    (hI : env.decodeIdpList body = Except.ok ilist) :
    getAppList env ⟨[(none, some e), (some ⟨200, Except.ok body⟩, none)], []⟩ =
      (Outcome.ok alist.Applications,
        ["Error while retrieving application count. Retrieving only the default count. failed to retrieve available app list. " ++ e],
        ⟨[], [(APPLICATIONS, -1), (APPLICATIONS, -1)]⟩) ∧
    getIdpList env ⟨[(none, some e), (some ⟨200, Except.ok body⟩, none)], []⟩ =
      (Outcome.ok (Except.ok ilist.IdentityProviders),
        ["Error: when retrieving IDP count. Retrieving only the default count. failed to retrieve available IDP list. " ++ e],
        ⟨[], [(IDENTITY_PROVIDERS, -1), (IDENTITY_PROVIDERS, -1)]⟩) := by
  constructor
  · simp only [getAppList, getTotalAppCount, sendGetListRequest, hA]
    rfl
  · simp only [getIdpList, getTotalIdpCount, sendGetListRequest, hI]
    rfl

/-- Witness for C1: a transiently failing count query followed by a
successful 3-item list query returns exactly those 3 items with no error and
a logged warning. -/
theorem getList_countFailure_bestEffort_witness :
    getAppList
      ⟨fun _ => none,
        fun _ => Except.ok ⟨3, [⟨"i1", "a1"⟩, ⟨"i2", "a2"⟩, ⟨"i3", "a3"⟩]⟩,
        fun _ => Except.ok ⟨3, [⟨"j1", "p1"⟩, ⟨"j2", "p2"⟩, ⟨"j3", "p3"⟩]⟩⟩
      ⟨[(none, some "dial tcp: connection refused"),
        (some ⟨200, Except.ok "payload"⟩, none)], []⟩ =
      (Outcome.ok [⟨"i1", "a1"⟩, ⟨"i2", "a2"⟩, ⟨"i3", "a3"⟩],
        ["Error while retrieving application count. Retrieving only the default count. failed to retrieve available app list. dial tcp: connection refused"],
        ⟨[], [(APPLICATIONS, -1), (APPLICATIONS, -1)]⟩) ∧
    getIdpList
      ⟨fun _ => none,
        fun _ => Except.ok ⟨3, [⟨"i1", "a1"⟩, ⟨"i2", "a2"⟩, ⟨"i3", "a3"⟩]⟩,
        fun _ => Except.ok ⟨3, [⟨"j1", "p1"⟩, ⟨"j2", "p2"⟩, ⟨"j3", "p3"⟩]⟩⟩
      ⟨[(none, some "dial tcp: connection refused"),
        (some ⟨200, Except.ok "payload"⟩, none)], []⟩ =
      (Outcome.ok (Except.ok [⟨"j1", "p1"⟩, ⟨"j2", "p2"⟩, ⟨"j3", "p3"⟩]),
        ["Error: when retrieving IDP count. Retrieving only the default count. failed to retrieve available IDP list. dial tcp: connection refused"],
        ⟨[], [(IDENTITY_PROVIDERS, -1), (IDENTITY_PROVIDERS, -1)]⟩) := by
  exact getList_countFailure_bestEffort
    ⟨fun _ => none,
      fun _ => Except.ok ⟨3, [⟨"i1", "a1"⟩, ⟨"i2", "a2"⟩, ⟨"i3", "a3"⟩]⟩,
      fun _ => Except.ok ⟨3, [⟨"j1", "p1"⟩, ⟨"j2", "p2"⟩, ⟨"j3", "p3"⟩]⟩⟩
    "dial tcp: connection refused" "payload"
    ⟨3, [⟨"i1", "a1"⟩, ⟨"i2", "a2"⟩, ⟨"i3", "a3"⟩]⟩
    ⟨3, [⟨"j1", "p1"⟩, ⟨"j2", "p2"⟩, ⟨"j3", "p3"⟩]⟩ rfl rfl

/-- C5 is violated by `getAppList`: when the list-request collaborator
returns a transport error (nil response, non-nil error), `getAppList` logs
and then dereferences the nil response in `defer resp.Body.Close()`, so the
operation neither completes nor closes a body; evaluated here at a concrete
failing input. -/
theorem getAppList_nilDeref_on_transportError :
    getAppList
      ⟨fun _ => none, fun _ => Except.ok ⟨2, []⟩, fun _ => Except.ok ⟨2, []⟩⟩
      ⟨[(some ⟨200, Except.ok "b"⟩, none), (none, some "connection refused")], []⟩ =
      (Outcome.nilDeref,
        ["Error while retrieving application list connection refused"],
        ⟨[], [(APPLICATIONS, -1), (APPLICATIONS, 2)]⟩) := by
  rfl

/-- C4 as stated is false for applications: a non-success HTTP status on the
list query makes `getAppList` log the classified message and return the nil
slice with no error value at all (its signature has no error result). -/
theorem getAppList_no_error_on_status :
    getAppList
      ⟨fun statusCode => if statusCode == 500 then some "Error response from the server" else none,
        fun _ => Except.ok ⟨1, []⟩, fun _ => Except.ok ⟨1, []⟩⟩
      ⟨[(some ⟨200, Except.ok "c"⟩, none), (some ⟨500, Except.ok ""⟩, none)], []⟩ =
      (Outcome.ok [], ["Error response from the server"],
        ⟨[], [(APPLICATIONS, -1), (APPLICATIONS, 1)]⟩) := by
  rfl

/-- C4 amended: for identity providers, list-fetch transport errors and
non-success statuses produce a descriptive error to the caller, wrapping the
underlying cause or the classified status message; for applications, which
have no error result, a non-success status yields the logged classified
message and the nil slice. -/
theorem getList_listFailure_errors (env : ListerEnv) (e body msg : String)
    (statusCode : Int) (alist : AppList) (ilist : idpList)
    (hA : env.decodeAppList body = Except.ok alist)
    (hI : env.decodeIdpList body = Except.ok ilist)
    (hs : (statusCode == 200) = false)
    (hm : env.errorCodes statusCode = some msg) :
    getIdpList env ⟨[(some ⟨200, Except.ok body⟩, none), (none, some e)], []⟩ =
      (Outcome.ok (Except.error ("failed to retrieve available IDP list. " ++ e)),
        [], ⟨[], [(IDENTITY_PROVIDERS, -1), (IDENTITY_PROVIDERS, ilist.IdpCount)]⟩) ∧
    getIdpList env
      ⟨[(some ⟨200, Except.ok body⟩, none), (some ⟨statusCode, Except.ok ""⟩, none)], []⟩ =
      (Outcome.ok (Except.error ("error while retrieving IDP list. Status code: " ++
          toString statusCode ++ ", Error: " ++ msg)),
        [], ⟨[], [(IDENTITY_PROVIDERS, -1), (IDENTITY_PROVIDERS, ilist.IdpCount)]⟩) ∧
    getAppList env
      ⟨[(some ⟨200, Except.ok body⟩, none), (some ⟨statusCode, Except.ok ""⟩, none)], []⟩ =
      (Outcome.ok [], [msg],
        ⟨[], [(APPLICATIONS, -1), (APPLICATIONS, alist.AppCount)]⟩) := by
  refine ⟨?_, ?_, ?_⟩
  · simp [getIdpList, getTotalIdpCount, sendGetListRequest, hI]
  · simp [getIdpList, getTotalIdpCount, sendGetListRequest, hI, hs, hm]
  · simp [getAppList, getTotalAppCount, sendGetListRequest, hA, hs, hm]

/-- Witness for the amended C4 at a concrete environment and traces. -/
theorem getList_listFailure_errors_witness :
    getIdpList
      ⟨fun statusCode => if statusCode == 403 then some "Forbidden" else none,
        fun _ => Except.ok ⟨0, []⟩, fun _ => Except.ok ⟨0, []⟩⟩
      ⟨[(some ⟨200, Except.ok "c"⟩, none), (none, some "reset by peer")], []⟩ =
      (Outcome.ok (Except.error "failed to retrieve available IDP list. reset by peer"),
        [], ⟨[], [(IDENTITY_PROVIDERS, -1), (IDENTITY_PROVIDERS, 0)]⟩) ∧
    getIdpList
      ⟨fun statusCode => if statusCode == 403 then some "Forbidden" else none,
        fun _ => Except.ok ⟨0, []⟩, fun _ => Except.ok ⟨0, []⟩⟩
      ⟨[(some ⟨200, Except.ok "c"⟩, none), (some ⟨403, Except.ok ""⟩, none)], []⟩ =
      (Outcome.ok (Except.error "error while retrieving IDP list. Status code: 403, Error: Forbidden"),
        [], ⟨[], [(IDENTITY_PROVIDERS, -1), (IDENTITY_PROVIDERS, 0)]⟩) ∧
    getAppList
      ⟨fun statusCode => if statusCode == 403 then some "Forbidden" else none,
        fun _ => Except.ok ⟨0, []⟩, fun _ => Except.ok ⟨0, []⟩⟩
      ⟨[(some ⟨200, Except.ok "c"⟩, none), (some ⟨403, Except.ok ""⟩, none)], []⟩ =
      (Outcome.ok [], ["Forbidden"], ⟨[], [(APPLICATIONS, -1), (APPLICATIONS, 0)]⟩) := by
  exact getList_listFailure_errors
    ⟨fun statusCode => if statusCode == 403 then some "Forbidden" else none,
      fun _ => Except.ok ⟨0, []⟩, fun _ => Except.ok ⟨0, []⟩⟩
    "reset by peer" "c" "Forbidden" 403 ⟨0, []⟩ ⟨0, []⟩ rfl rfl rfl rfl

/-! ## Lemmas about the masker scan -/

theorem hasPre_append_self (p t : List Char) : hasPre p (p ++ t) = true := by
  induction p with
  | nil => rfl
  | cons a as ih => simp [hasPre, ih]

theorem eq_append_drop_of_hasPre :
    ∀ {p l : List Char}, hasPre p l = true → l = p ++ l.drop p.length := by
  intro p
  induction p with
  | nil => intro l _; rfl
  | cons a as ih =>
    intro l h
    cases l with
    | nil => simp [hasPre] at h
    | cons b bs =>
      simp only [hasPre, Bool.and_eq_true, beq_iff_eq] at h
      obtain ⟨rfl, h2⟩ := h
      exact congrArg (List.cons a) (ih h2)

theorem length_le_of_hasPre {p l : List Char} (h : hasPre p l = true) :
    p.length ≤ l.length := by
  have h2 := congrArg List.length (eq_append_drop_of_hasPre h)
  simp only [List.length_append] at h2
  omega

theorem hasPre_append_nl :
    ∀ (p : List Char), nlFree p = true → ∀ (u x : List Char),
      hasPre p (u ++ '\n' :: x) = hasPre p u := by
  intro p
  induction p with
  | nil => intro _ u x; rfl
  | cons a as ih =>
    intro hp u x
    simp only [nlFree, List.all_cons, Bool.and_eq_true, Bool.not_eq_true'] at hp
    cases u with
    | nil => simp [hasPre, hp.1]
    | cons b bs =>
      simp only [List.cons_append, hasPre, List.append_eq]
      rw [ih hp.2]

theorem splitLastNl_eq_none :
    ∀ (w : List Char), splitLastNl w = none ↔ nlFree w = true := by
  intro w
  induction w with
  | nil => constructor <;> intro <;> rfl
  | cons c cs ih =>
    constructor
    · intro h
      rw [splitLastNl] at h
      cases hs : splitLastNl cs with
      | some p => rw [hs] at h; simp at h
      | none =>
        rw [hs] at h
        by_cases hc : c = '\n'
        · simp [hc] at h
        · simp only [nlFree, List.all_cons, Bool.and_eq_true, Bool.not_eq_true']
          exact ⟨by simpa using hc, ih.mp hs⟩
    · intro h
      simp only [nlFree, List.all_cons, Bool.and_eq_true, Bool.not_eq_true'] at h
      rw [splitLastNl, ih.mpr h.2]
      simp only [beq_eq_false_iff_ne, ne_eq] at h
      simp [h.1]

theorem splitLastNl_eq_some :
    ∀ {w : List Char} {a r : List Char}, splitLastNl w = some (a, r) →
      w = a ++ r ∧ ∃ rr, r = '\n' :: rr := by
  intro w
  induction w with
  | nil => intro a r h; simp [splitLastNl] at h
  | cons c cs ih =>
    intro a r h
    rw [splitLastNl] at h
    cases hs : splitLastNl cs with
    | some p =>
      obtain ⟨p1, p2⟩ := p
      rw [hs] at h
      simp only [Option.some.injEq, Prod.mk.injEq] at h
      obtain ⟨ha, hr⟩ := h
      obtain ⟨hw, rr, hrr⟩ := ih hs
      subst ha; subst hr
      exact ⟨by rw [List.cons_append, ← hw], rr, hrr⟩
    | none =>
      rw [hs] at h
      by_cases hc : c = '\n'
      · rw [if_pos hc] at h
        simp only [Option.some.injEq, Prod.mk.injEq] at h
        obtain ⟨ha, hr⟩ := h
        subst ha; subst hr
        exact ⟨rfl, cs, by rw [hc]⟩
      · rw [if_neg hc] at h
        exact absurd h (by simp)

theorem splitFirstNl_eq_none :
    ∀ (s : List Char), splitFirstNl s = none ↔ nlFree s = true := by
  intro s
  induction s with
  | nil => constructor <;> intro <;> rfl
  | cons c cs ih =>
    constructor
    · intro h
      rw [splitFirstNl] at h
      by_cases hc : c = '\n'
      · simp [hc] at h
      · rw [if_neg hc] at h
        simp only [nlFree, List.all_cons, Bool.and_eq_true, Bool.not_eq_true']
        refine ⟨by simpa using hc, ?_⟩
        cases hs : splitFirstNl cs with
        | some p => rw [hs] at h; simp at h
        | none => exact ih.mp hs
    · intro h
      simp only [nlFree, List.all_cons, Bool.and_eq_true, Bool.not_eq_true'] at h
      rw [splitFirstNl, ih.mpr h.2]
      have : ¬ c = '\n' := by simpa using h.1
      simp [this]

theorem splitFirstNl_eq_some :
    ∀ {s : List Char} {a b : List Char}, splitFirstNl s = some (a, b) →
      ∃ a0, nlFree a0 = true ∧ a = a0 ++ ['\n'] ∧ s = a0 ++ '\n' :: b := by
  intro s
  induction s with
  | nil => intro a b h; simp [splitFirstNl] at h
  | cons c cs ih =>
    intro a b h
    rw [splitFirstNl] at h
    by_cases hc : c = '\n'
    · rw [if_pos hc] at h
      simp only [Option.some.injEq, Prod.mk.injEq] at h
      obtain ⟨ha, hb⟩ := h
      subst ha; subst hb; subst hc
      exact ⟨[], rfl, rfl, rfl⟩
    · rw [if_neg hc] at h
      cases hs : splitFirstNl cs with
      | some p =>
        obtain ⟨p1, p2⟩ := p
        rw [hs] at h
        simp only [Option.some.injEq, Prod.mk.injEq] at h
        obtain ⟨ha, hb⟩ := h
        obtain ⟨a0, h0, h1, h2⟩ := ih hs
        subst ha; subst hb; subst h1
        refine ⟨c :: a0, ?_, rfl, by rw [h2]; rfl⟩
        simp only [nlFree, List.all_cons, Bool.and_eq_true, Bool.not_eq_true']
        exact ⟨by simpa using hc, h0⟩
      | none => rw [hs] at h; exact absurd h (by simp)

theorem tryMatch_cons_ws {c : Char} (t : List Char) (hc : isWs c = true) :
    (tryMatch (c :: t)).isNone = (tryMatch t).isNone := by
  unfold tryMatch
  rw [List.dropWhile_cons_of_pos hc, List.takeWhile_cons_of_pos hc]
  by_cases hp : hasPre secretLabel (t.dropWhile isWs) = true
  · rw [if_pos hp, if_pos hp]
    cases tryVal ((t.dropWhile isWs).drop secretLabel.length) with
    | some p => cases p; rfl
    | none => rfl
  · rw [if_neg hp, if_neg hp]

theorem tryVal_cons_ws {c : Char} (t : List Char) (hc : isWs c = true) :
    (tryVal (c :: t)).isNone = (tryVal t).isNone := by
  unfold tryVal
  rw [List.dropWhile_cons_of_pos hc, List.takeWhile_cons_of_pos hc]
  by_cases hp : hasPre nullLit (t.dropWhile isWs) = true
  · rw [if_pos hp, if_pos hp]
    cases tryTail ((t.dropWhile isWs).drop nullLit.length) with
    | some p => rfl
    | none => rfl
  · rw [if_neg hp, if_neg hp]

theorem tryMatch_append_ws :
    ∀ {w : List Char}, wsOnly w = true → ∀ (t : List Char),
      (tryMatch (w ++ t)).isNone = (tryMatch t).isNone := by
  intro w
  induction w with
  | nil => intro _ t; rfl
  | cons c cs ih =>
    intro hw t
    simp only [wsOnly, List.all_cons, Bool.and_eq_true] at hw
    rw [List.cons_append, tryMatch_cons_ws _ hw.1, ih hw.2]

theorem tryVal_append_ws :
    ∀ {w : List Char}, wsOnly w = true → ∀ (t : List Char),
      (tryVal (w ++ t)).isNone = (tryVal t).isNone := by
  intro w
  induction w with
  | nil => intro _ t; rfl
  | cons c cs ih =>
    intro hw t
    simp only [wsOnly, List.all_cons, Bool.and_eq_true] at hw
    rw [List.cons_append, tryVal_cons_ws _ hw.1, ih hw.2]

theorem dropWhile_isWs_label (t : List Char) :
    (secretLabel ++ t).dropWhile isWs = secretLabel ++ t := rfl

theorem dropWhile_isWs_maskTok (t : List Char) :
    (maskTok ++ t).dropWhile isWs = maskTok ++ t := rfl

theorem hasPre_nullLit_label (t : List Char) :
    hasPre nullLit (secretLabel ++ t) = false := rfl

theorem hasPre_nullLit_maskTok (t : List Char) :
    hasPre nullLit (maskTok ++ t) = false := rfl

theorem hasPre_label_maskTok (t : List Char) :
    hasPre secretLabel (maskTok ++ t) = false := rfl

theorem tryMatch_label (t : List Char) :
    (tryMatch (secretLabel ++ t)).isNone = (tryVal t).isNone := by
  unfold tryMatch
  rw [dropWhile_isWs_label, List.drop_left' (rfl : secretLabel.length = secretLabel.length)]
  rw [if_pos (hasPre_append_self secretLabel t)]
  cases tryVal t with
  | some p => cases p; rfl
  | none => rfl

theorem tryVal_label_isNone (t : List Char) :
    (tryVal (secretLabel ++ t)).isNone = true := by
  unfold tryVal
  rw [dropWhile_isWs_label, hasPre_nullLit_label]
  rfl

theorem tryVal_maskTok_isNone (t : List Char) :
    (tryVal (maskTok ++ t)).isNone = true := by
  unfold tryVal
  rw [dropWhile_isWs_maskTok, hasPre_nullLit_maskTok]
  rfl

theorem tryMatch_maskTok_isNone (t : List Char) :
    (tryMatch (maskTok ++ t)).isNone = true := by
  unfold tryMatch
  rw [dropWhile_isWs_maskTok, hasPre_label_maskTok]
  rfl

theorem tryTail_eq_some {u rest : List Char} (h : tryTail u = some rest) :
    (rest = [] ∨ ∃ rr, rest = '\n' :: rr) ∧ rest.length ≤ u.length := by
  unfold tryTail at h
  by_cases he : (u.dropWhile isWs).isEmpty = true
  · rw [if_pos he] at h
    simp only [Option.some.injEq] at h
    subst h
    exact ⟨Or.inl rfl, by simp⟩
  · rw [if_neg he] at h
    cases hs : splitLastNl (u.takeWhile isWs) with
    | some p =>
      obtain ⟨a, r⟩ := p
      rw [hs] at h
      simp only [Option.some.injEq] at h
      subst h
      obtain ⟨hw, rr, hrr⟩ := splitLastNl_eq_some hs
      constructor
      · right
        exact ⟨rr ++ u.dropWhile isWs, by rw [hrr]; rfl⟩
      · have h1 : (u.takeWhile isWs).length = a.length + r.length := by
          rw [hw]; simp
        have h2 : (u.takeWhile isWs).length + (u.dropWhile isWs).length = u.length := by
          rw [← List.length_append, List.takeWhile_append_dropWhile]
        simp only [List.length_append]
        omega
    | none => rw [hs] at h; exact absurd h (by simp)

theorem tryVal_eq_some {u w2 rest : List Char} (h : tryVal u = some (w2, rest)) :
    w2 = u.takeWhile isWs ∧ (rest = [] ∨ ∃ rr, rest = '\n' :: rr) ∧
      rest.length < u.length := by
  unfold tryVal at h
  by_cases hp : hasPre nullLit (u.dropWhile isWs) = true
  · rw [if_pos hp] at h
    cases ht : tryTail ((u.dropWhile isWs).drop nullLit.length) with
    | some r2 =>
      rw [ht] at h
      simp only [Option.some.injEq, Prod.mk.injEq] at h
      obtain ⟨hw, hr⟩ := h
      obtain ⟨hshape, hlen⟩ := tryTail_eq_some ht
      subst hw
      subst hr
      refine ⟨rfl, hshape, ?_⟩
      have h4 : nullLit.length ≤ (u.dropWhile isWs).length := length_le_of_hasPre hp
      have h5 : ((u.dropWhile isWs).drop nullLit.length).length
          = (u.dropWhile isWs).length - nullLit.length := by simp
      have h2 : (u.takeWhile isWs).length + (u.dropWhile isWs).length = u.length := by
        rw [← List.length_append, List.takeWhile_append_dropWhile]
      have h6 : 0 < nullLit.length := by decide
      omega
    | none => rw [ht] at h; exact absurd h (by simp)
  · rw [if_neg hp] at h; exact absurd h (by simp)

theorem tryMatch_eq_some {s g1 rest : List Char} (h : tryMatch s = some (g1, rest)) :
    (∃ w2, wsOnly (s.takeWhile isWs) = true ∧ wsOnly w2 = true ∧
      g1 = s.takeWhile isWs ++ secretLabel ++ w2) ∧
    (rest = [] ∨ ∃ rr, rest = '\n' :: rr) ∧ rest.length < s.length := by
  unfold tryMatch at h
  by_cases hp : hasPre secretLabel (s.dropWhile isWs) = true
  · rw [if_pos hp] at h
    cases ht : tryVal ((s.dropWhile isWs).drop secretLabel.length) with
    | some p =>
      obtain ⟨w2, r2⟩ := p
      rw [ht] at h
      simp only [Option.some.injEq, Prod.mk.injEq] at h
      obtain ⟨hg, hr⟩ := h
      obtain ⟨hw2, hshape, hlen⟩ := tryVal_eq_some ht
      subst hg
      subst hr
      constructor
      · refine ⟨w2, ?_, ?_, rfl⟩
        · simp [wsOnly, List.all_takeWhile]
        · rw [hw2]; simp [wsOnly, List.all_takeWhile]
      · refine ⟨hshape, ?_⟩
        have h2 : (s.takeWhile isWs).length + (s.dropWhile isWs).length = s.length := by
          rw [← List.length_append, List.takeWhile_append_dropWhile]
        have h5 : ((s.dropWhile isWs).drop secretLabel.length).length
            = (s.dropWhile isWs).length - secretLabel.length := by simp
        omega
    | none => rw [ht] at h; exact absurd h (by simp)
  · rw [if_neg hp] at h; exact absurd h (by simp)

theorem goLineF_congr :
    ∀ (n : Nat) (s : List Char) (f1 f2 : Nat), s.length ≤ n →
      s.length < f1 → s.length < f2 → goLineF f1 s = goLineF f2 s := by
  intro n
  induction n with
  | zero =>
    intro s f1 f2 hn h1 h2
    have hs : s = [] := List.eq_nil_of_length_eq_zero (Nat.le_zero.mp hn)
    subst hs
    cases f1 with
    | zero => omega
    | succ g1 =>
      cases f2 with
      | zero => omega
      | succ g2 => rfl
  | succ n ih =>
    intro s f1 f2 hn h1 h2
    cases f1 with
    | zero => omega
    | succ g1 =>
      cases f2 with
      | zero => omega
      | succ g2 =>
        cases hm : tryMatch s with
        | some p =>
          obtain ⟨g, rest⟩ := p
          obtain ⟨_, _, hlen⟩ := tryMatch_eq_some hm
          cases hsp : splitFirstNl rest with
          | some q =>
            obtain ⟨a, b⟩ := q
            obtain ⟨a0, _, _, hseq⟩ := splitFirstNl_eq_some hsp
            have hb : b.length < rest.length := by
              rw [hseq]; simp only [List.length_append, List.length_cons]; omega
            simp only [goLineF, hm, hsp]
            rw [ih b g1 g2 (by omega) (by omega) (by omega)]
          | none => simp only [goLineF, hm, hsp]
        | none =>
          cases hsp : splitFirstNl s with
          | some q =>
            obtain ⟨a, b⟩ := q
            obtain ⟨a0, _, _, hseq⟩ := splitFirstNl_eq_some hsp
            have hb : b.length < s.length := by
              rw [hseq]; simp only [List.length_append, List.length_cons]; omega
            simp only [goLineF, hm, hsp]
            rw [ih b g1 g2 (by omega) (by omega) (by omega)]
          | none => simp only [goLineF, hm, hsp]

theorem goLine_eq_some {s g1 rest : List Char} (h : tryMatch s = some (g1, rest)) :
    goLine s = g1 ++ maskTok ++ goSkip rest := by
  obtain ⟨_, _, hlen⟩ := tryMatch_eq_some h
  unfold goLine goSkip
  cases hsp : splitFirstNl rest with
  | some q =>
    obtain ⟨a, b⟩ := q
    obtain ⟨a0, _, _, hseq⟩ := splitFirstNl_eq_some hsp
    have hb : b.length < rest.length := by
      rw [hseq]; simp only [List.length_append, List.length_cons]; omega
    simp only [goLineF, h, hsp]
    rw [goLineF_congr s.length b s.length (b.length + 1) (by omega) (by omega) (by omega)]
    unfold goLine
    rw [List.append_assoc]
  | none => simp only [goLineF, h, hsp]

theorem goLine_eq_none {s : List Char} (h : tryMatch s = none) :
    goLine s = goSkip s := by
  unfold goLine goSkip
  cases hsp : splitFirstNl s with
  | some q =>
    obtain ⟨a, b⟩ := q
    obtain ⟨a0, _, _, hseq⟩ := splitFirstNl_eq_some hsp
    have hb : b.length < s.length := by
      rw [hseq]; simp only [List.length_append, List.length_cons]; omega
    simp only [goLineF, h, hsp]
    rw [goLineF_congr s.length b s.length (b.length + 1) (by omega) (by omega) (by omega)]
    unfold goLine
    rfl
  | none => simp only [goLineF, h, hsp]

theorem noMatchS_append_nlFree :
    ∀ {a : List Char}, nlFree a = true → ∀ (t : List Char),
      noMatchS (a ++ t) = noMatchS t := by
  intro a
  induction a with
  | nil => intro _ t; rfl
  | cons c cs ih =>
    intro ha t
    simp only [nlFree, List.all_cons, Bool.and_eq_true, Bool.not_eq_true'] at ha
    have hc : ¬ c = '\n' := by simpa using ha.1
    rw [List.cons_append, noMatchS, if_neg hc, ih ha.2, Bool.true_and]

theorem noMatchS_append_nl {a0 : List Char} (h : nlFree a0 = true) (t : List Char) :
    noMatchS (a0 ++ '\n' :: t) = ((tryMatch t).isNone && noMatchS t) := by
  rw [noMatchS_append_nlFree h, noMatchS, if_pos rfl]

theorem noMatchS_nlFree : ∀ {s : List Char}, nlFree s = true → noMatchS s = true := by
  intro s
  induction s with
  | nil => intro _; rfl
  | cons c cs ih =>
    intro h
    simp only [nlFree, List.all_cons, Bool.and_eq_true, Bool.not_eq_true'] at h
    have hc : ¬ c = '\n' := by simpa using h.1
    rw [noMatchS, if_neg hc, Bool.true_and]
    exact ih h.2

theorem noMatchS_ws_append :
    ∀ {w : List Char}, wsOnly w = true → ∀ {t : List Char},
      (tryMatch t).isNone = true → noMatchS t = true → noMatchS (w ++ t) = true := by
  intro w
  induction w with
  | nil => intro _ t h1 h2; exact h2
  | cons c cs ih =>
    intro hw t h1 h2
    simp only [wsOnly, List.all_cons, Bool.and_eq_true] at hw
    rw [List.cons_append, noMatchS, ih hw.2 h1 h2, Bool.and_true]
    by_cases hc : c = '\n'
    · rw [if_pos hc, tryMatch_append_ws hw.2]
      exact h1
    · rw [if_neg hc]

theorem dropWhile_head_not {p : Char → Bool} :
    ∀ {l : List Char} {c : Char} {r : List Char},
      l.dropWhile p = c :: r → p c = false := by
  intro l
  induction l with
  | nil => intro c r h; simp [List.dropWhile] at h
  | cons a as ih =>
    intro c r h
    by_cases ha : p a = true
    · rw [List.dropWhile_cons_of_pos ha] at h
      exact ih h
    · rw [List.dropWhile_cons_of_neg ha] at h
      obtain ⟨rfl, -⟩ := List.cons.injEq _ _ _ _ ▸ h
      · simpa using ha

theorem all_of_takeWhile_length {p : Char → Bool} :
    ∀ {l : List Char}, (l.takeWhile p).length = l.length → l.all p = true := by
  intro l
  induction l with
  | nil => intro _; rfl
  | cons c cs ih =>
    intro h
    by_cases hc : p c = true
    · rw [List.takeWhile_cons_of_pos hc, List.length_cons, List.length_cons] at h
      simp only [List.all_cons, hc, Bool.true_and]
      exact ih (by omega)
    · rw [List.takeWhile_cons_of_neg hc] at h
      simp at h

theorem nlFree_append_elim {a b : List Char} (h : nlFree (a ++ b) = true) :
    nlFree a = true ∧ nlFree b = true := by
  simp only [nlFree, List.all_append, Bool.and_eq_true] at h
  exact h

theorem nlFree_takeWhile_dropWhile {p : Char → Bool} {l : List Char}
    (h : nlFree l = true) :
    nlFree (l.takeWhile p) = true ∧ nlFree (l.dropWhile p) = true := by
  refine nlFree_append_elim (a := l.takeWhile p) (b := l.dropWhile p) ?_
  rw [List.takeWhile_append_dropWhile]
  exact h

theorem nlFree_drop {l : List Char} (n : Nat) (h : nlFree l = true) :
    nlFree (l.drop n) = true := by
  simp only [nlFree, List.all_eq_true] at h ⊢
  intro c hc
  exact h c (List.mem_of_mem_drop hc)

theorem tryMatch_cons_nonWs_pos {c : Char} {X : List Char} (hc : isWs c = false)
    (hp : hasPre secretLabel (c :: X) = true) :
    (tryMatch (c :: X)).isNone =
      (tryVal ((c :: X).drop secretLabel.length)).isNone := by
  unfold tryMatch
  rw [List.dropWhile_cons_of_neg (by simp [hc]), if_pos hp]
  cases tryVal ((c :: X).drop secretLabel.length) with
  | some p => cases p; rfl
  | none => rfl

theorem tryMatch_cons_nonWs_neg {c : Char} {X : List Char} (hc : isWs c = false)
    (hp : hasPre secretLabel (c :: X) = false) :
    (tryMatch (c :: X)).isNone = true := by
  unfold tryMatch
  rw [List.dropWhile_cons_of_neg (by simp [hc]), if_neg (by simp [hp])]
  rfl

theorem tryVal_cons_nonWs_pos {c : Char} {X : List Char} (hc : isWs c = false)
    (hp : hasPre nullLit (c :: X) = true) :
    (tryVal (c :: X)).isNone =
      (tryTail ((c :: X).drop nullLit.length)).isNone := by
  unfold tryVal
  rw [List.dropWhile_cons_of_neg (by simp [hc]), if_pos hp]
  cases tryTail ((c :: X).drop nullLit.length) with
  | some p => rfl
  | none => rfl

theorem tryVal_cons_nonWs_neg {c : Char} {X : List Char} (hc : isWs c = false)
    (hp : hasPre nullLit (c :: X) = false) :
    (tryVal (c :: X)).isNone = true := by
  unfold tryVal
  rw [List.dropWhile_cons_of_neg (by simp [hc]), if_neg (by simp [hp])]
  rfl

theorem dropWhile_ne_nil_of_not_all {p : Char → Bool} {l : List Char}
    (h : l.all p = false) : l.dropWhile p ≠ [] := by
  intro hnil
  have hlen : (l.takeWhile p).length = l.length := by
    conv_rhs => rw [← List.takeWhile_append_dropWhile (p := p) (l := l)]
    rw [hnil, List.append_nil]
  rw [all_of_takeWhile_length hlen] at h
  simp at h

theorem tryTail_isNone_false_of_ws {r4 : List Char} (hw4 : wsOnly r4 = true)
    (x : List Char) : (tryTail (r4 ++ '\n' :: x)).isNone = false := by
  unfold tryTail
  have hmem : ∀ a ∈ r4, isWs a = true := by
    simpa [wsOnly, List.all_eq_true] using hw4
  rw [List.dropWhile_append_of_pos hmem,
    List.dropWhile_cons_of_pos (by decide : isWs '\n' = true),
    List.takeWhile_append_of_pos hmem,
    List.takeWhile_cons_of_pos (by decide : isWs '\n' = true)]
  by_cases he : (x.dropWhile isWs).isEmpty = true
  · rw [if_pos he]; rfl
  · rw [if_neg he]
    cases hs : splitLastNl (r4 ++ '\n' :: x.takeWhile isWs) with
    | some p => cases p; rfl
    | none =>
      exfalso
      have hn := (splitLastNl_eq_none _).mp hs
      simp [nlFree, List.all_append] at hn

theorem tryTail_isNone_true_of_nonWs {r4 : List Char} (h4 : nlFree r4 = true)
    (hw4 : wsOnly r4 = false) (x : List Char) :
    (tryTail (r4 ++ '\n' :: x)).isNone = true := by
  obtain ⟨d, d', hdd⟩ : ∃ d d', r4.dropWhile isWs = d :: d' := by
    cases hdw : r4.dropWhile isWs with
    | nil =>
      exact absurd hdw (dropWhile_ne_nil_of_not_all (by simpa [wsOnly] using hw4))
    | cons d d' => exact ⟨d, d', rfl⟩
  unfold tryTail
  have hlt : (r4.takeWhile isWs).length ≠ r4.length := by
    intro heq
    have := all_of_takeWhile_length heq
    rw [wsOnly] at hw4
    rw [this] at hw4
    simp at hw4
  have htake : ((r4 ++ '\n' :: x).takeWhile isWs) = r4.takeWhile isWs := by
    rw [List.takeWhile_append, if_neg hlt]
  have hdrop : ((r4 ++ '\n' :: x).dropWhile isWs) = r4.dropWhile isWs ++ '\n' :: x := by
    rw [List.dropWhile_append, if_neg (by rw [hdd]; simp)]
  rw [htake, hdrop, hdd]
  rw [if_neg (by simp)]
  have hnone : splitLastNl (r4.takeWhile isWs) = none :=
    (splitLastNl_eq_none _).mpr (nlFree_takeWhile_dropWhile h4).1
  rw [hnone]
  rfl

theorem crossVal (a0 : List Char) (h0 : nlFree a0 = true) :
    (∀ x, (tryVal (a0 ++ '\n' :: x)).isNone = (tryVal x).isNone) ∨
    (∃ cst, ∀ x, (tryVal (a0 ++ '\n' :: x)).isNone = cst) := by
  by_cases hws : wsOnly a0 = true
  · left
    intro x
    have hsplit : a0 ++ '\n' :: x = (a0 ++ ['\n']) ++ x := by
      rw [List.append_assoc]
      rfl
    have hwnl : wsOnly (a0 ++ ['\n']) = true := by
      simp only [wsOnly, List.all_append, Bool.and_eq_true]
      exact ⟨hws, by decide⟩
    rw [hsplit, tryVal_append_ws hwnl x]
  · right
    obtain ⟨c, r', hcr⟩ : ∃ c r', a0.dropWhile isWs = c :: r' := by
      cases hdw : a0.dropWhile isWs with
      | nil =>
        exact absurd hdw (dropWhile_ne_nil_of_not_all (by simpa [wsOnly] using hws))
      | cons c r' => exact ⟨c, r', rfl⟩
    have hc : isWs c = false := dropWhile_head_not hcr
    have hwtake : wsOnly (a0.takeWhile isWs) = true := by
      simp [wsOnly, List.all_takeWhile]
    have hnl_cr : nlFree (c :: r') = true := by
      rw [← hcr]
      exact (nlFree_takeWhile_dropWhile h0).2
    have hred : ∀ x : List Char, (tryVal (a0 ++ '\n' :: x)).isNone
        = (tryVal (c :: (r' ++ '\n' :: x))).isNone := by
      intro x
      conv_lhs => rw [← List.takeWhile_append_dropWhile (p := isWs) (l := a0), hcr]
      rw [List.append_assoc, tryVal_append_ws hwtake, List.cons_append]
    by_cases hp : hasPre nullLit (c :: r') = true
    · have hprex : ∀ x : List Char,
          hasPre nullLit (c :: (r' ++ '\n' :: x)) = true := by
        intro x
        rw [← List.cons_append, hasPre_append_nl nullLit (by decide)]
        exact hp
      have hlen4 : nullLit.length ≤ (c :: r').length := length_le_of_hasPre hp
      have hdropx : ∀ x : List Char,
          (c :: (r' ++ '\n' :: x)).drop nullLit.length
            = (c :: r').drop nullLit.length ++ '\n' :: x := by
        intro x
        rw [← List.cons_append, List.drop_append_of_le_length hlen4]
      have hnl_r4 : nlFree ((c :: r').drop nullLit.length) = true :=
        nlFree_drop _ hnl_cr
      by_cases hw4 : wsOnly ((c :: r').drop nullLit.length) = true
      · refine ⟨false, fun x => ?_⟩
        rw [hred x, tryVal_cons_nonWs_pos hc (hprex x), hdropx x]
        exact tryTail_isNone_false_of_ws hw4 x
      · refine ⟨true, fun x => ?_⟩
        rw [hred x, tryVal_cons_nonWs_pos hc (hprex x), hdropx x]
        exact tryTail_isNone_true_of_nonWs hnl_r4 (by simpa using hw4) x
    · refine ⟨true, fun x => ?_⟩
      rw [hred x]
      refine tryVal_cons_nonWs_neg hc ?_
      rw [← List.cons_append, hasPre_append_nl nullLit (by decide)]
      simpa using hp

theorem crossMatch (a0 : List Char) (h0 : nlFree a0 = true) :
    (∀ x, (tryMatch (a0 ++ '\n' :: x)).isNone = (tryMatch x).isNone) ∨
    (∀ x, (tryMatch (a0 ++ '\n' :: x)).isNone = (tryVal x).isNone) ∨
    (∃ cst, ∀ x, (tryMatch (a0 ++ '\n' :: x)).isNone = cst) := by
  by_cases hws : wsOnly a0 = true
  · left
    intro x
    have hsplit : a0 ++ '\n' :: x = (a0 ++ ['\n']) ++ x := by
      rw [List.append_assoc]
      rfl
    have hwnl : wsOnly (a0 ++ ['\n']) = true := by
      simp only [wsOnly, List.all_append, Bool.and_eq_true]
      exact ⟨hws, by decide⟩
    rw [hsplit, tryMatch_append_ws hwnl x]
  · obtain ⟨c, r', hcr⟩ : ∃ c r', a0.dropWhile isWs = c :: r' := by
      cases hdw : a0.dropWhile isWs with
      | nil =>
        exact absurd hdw (dropWhile_ne_nil_of_not_all (by simpa [wsOnly] using hws))
      | cons c r' => exact ⟨c, r', rfl⟩
    have hc : isWs c = false := dropWhile_head_not hcr
    have hwtake : wsOnly (a0.takeWhile isWs) = true := by
      simp [wsOnly, List.all_takeWhile]
    have hnl_cr : nlFree (c :: r') = true := by
      rw [← hcr]
      exact (nlFree_takeWhile_dropWhile h0).2
    have hred : ∀ x : List Char, (tryMatch (a0 ++ '\n' :: x)).isNone
        = (tryMatch (c :: (r' ++ '\n' :: x))).isNone := by
      intro x
      conv_lhs => rw [← List.takeWhile_append_dropWhile (p := isWs) (l := a0), hcr]
      rw [List.append_assoc, tryMatch_append_ws hwtake, List.cons_append]
    by_cases hp : hasPre secretLabel (c :: r') = true
    · have hprex : ∀ x : List Char,
          hasPre secretLabel (c :: (r' ++ '\n' :: x)) = true := by
        intro x
        rw [← List.cons_append, hasPre_append_nl secretLabel (by decide)]
        exact hp
      have hlenL : secretLabel.length ≤ (c :: r').length := length_le_of_hasPre hp
      have hdropx : ∀ x : List Char,
          (c :: (r' ++ '\n' :: x)).drop secretLabel.length
            = (c :: r').drop secretLabel.length ++ '\n' :: x := by
        intro x
        rw [← List.cons_append, List.drop_append_of_le_length hlenL]
      have hnl_r2 : nlFree ((c :: r').drop secretLabel.length) = true :=
        nlFree_drop _ hnl_cr
      have hmain : ∀ x : List Char, (tryMatch (a0 ++ '\n' :: x)).isNone
          = (tryVal ((c :: r').drop secretLabel.length ++ '\n' :: x)).isNone := by
        intro x
        rw [hred x, tryMatch_cons_nonWs_pos hc (hprex x), hdropx x]
      rcases crossVal ((c :: r').drop secretLabel.length) hnl_r2 with hv | ⟨cst, hv⟩
      · right; left
        intro x
        rw [hmain x, hv x]
      · right; right
        exact ⟨cst, fun x => by rw [hmain x, hv x]⟩
    · right; right
      refine ⟨true, fun x => ?_⟩
      rw [hred x]
      refine tryMatch_cons_nonWs_neg hc ?_
      rw [← List.cons_append, hasPre_append_nl secretLabel (by decide)]
      simpa using hp

theorem goLine_noMatch :
    ∀ (n : Nat) (s : List Char), s.length ≤ n →
      (tryMatch (goLine s)).isNone = true ∧ noMatchS (goLine s) = true ∧
        ((tryVal s).isNone = true → (tryVal (goLine s)).isNone = true) := by
  intro n
  induction n with
  | zero =>
    intro s hn
    have hs : s = [] := List.eq_nil_of_length_eq_zero (Nat.le_zero.mp hn)
    subst hs
    exact ⟨rfl, rfl, fun _ => rfl⟩
  | succ n ih =>
    intro s hn
    cases hm : tryMatch s with
    | some p =>
      obtain ⟨g1, rest⟩ := p
      obtain ⟨⟨w2, hwt, hw2, hg1⟩, hshape, hlen⟩ := tryMatch_eq_some hm
      have hT2 : noMatchS (goSkip rest) = true := by
        rcases hshape with hrest | ⟨u, hrest⟩
        · rw [hrest]; rfl
        · rw [hrest]
          have hgs : goSkip ('\n' :: u) = '\n' :: goLine u := by
            unfold goSkip
            have hfe : splitFirstNl ('\n' :: u) = some (['\n'], u) := by
              rw [splitFirstNl]; simp
            rw [hfe]
            rfl
          rw [hgs, noMatchS, if_pos rfl]
          have hu : u.length ≤ n := by
            rw [hrest] at hlen
            simp only [List.length_cons] at hlen
            omega
          obtain ⟨ih1, ih2, -⟩ := ih u hu
          rw [ih1, ih2]
          rfl
      rw [goLine_eq_some hm, hg1]
      have hO : s.takeWhile isWs ++ secretLabel ++ w2 ++ maskTok ++ goSkip rest
          = s.takeWhile isWs ++
              (secretLabel ++ (w2 ++ (maskTok ++ goSkip rest))) := by
        simp [List.append_assoc]
      rw [hO]
      refine ⟨?_, ?_, fun _ => ?_⟩
      · rw [tryMatch_append_ws hwt, tryMatch_label, tryVal_append_ws hw2]
        exact tryVal_maskTok_isNone _
      · refine noMatchS_ws_append hwt ?_ ?_
        · rw [tryMatch_label, tryVal_append_ws hw2]
          exact tryVal_maskTok_isNone _
        · rw [noMatchS_append_nlFree (by decide : nlFree secretLabel = true)]
          refine noMatchS_ws_append hw2 ?_ ?_
          · exact tryMatch_maskTok_isNone _
          · rw [noMatchS_append_nlFree (by decide : nlFree maskTok = true)]
            exact hT2
      · rw [tryVal_append_ws hwt]
        exact tryVal_label_isNone _
    | none =>
      rw [goLine_eq_none hm]
      cases hsp : splitFirstNl s with
      | none =>
        have hnl : nlFree s = true := (splitFirstNl_eq_none s).mp hsp
        have hgs : goSkip s = s := by unfold goSkip; rw [hsp]
        rw [hgs]
        exact ⟨by rw [hm]; rfl, noMatchS_nlFree hnl, fun h => h⟩
      | some q =>
        obtain ⟨a, b⟩ := q
        obtain ⟨a0, h0, ha, hseq⟩ := splitFirstNl_eq_some hsp
        have hgs : goSkip s = a0 ++ '\n' :: goLine b := by
          unfold goSkip
          rw [hsp, ha]
          show (a0 ++ ['\n']) ++ goLine b = a0 ++ '\n' :: goLine b
          rw [List.append_assoc]
          rfl
        have hb : b.length ≤ n := by
          have hsl : s.length = a0.length + (b.length + 1) := by rw [hseq]; simp
          omega
        obtain ⟨ih1, ih2, ih3⟩ := ih b hb
        have hmb : (tryMatch (a0 ++ '\n' :: b)).isNone = true := by
          rw [← hseq, hm]; rfl
        refine ⟨?_, ?_, fun hv => ?_⟩
        · rw [hgs]
          rcases crossMatch a0 h0 with hcm | hcm | ⟨cst, hcm⟩
          · rw [hcm]
            exact ih1
          · rw [hcm]
            refine ih3 ?_
            rw [← hcm b]
            exact hmb
          · rw [hcm]
            rw [← hcm b]
            exact hmb
        · rw [hgs, noMatchS_append_nl h0, ih1, ih2]
          rfl
        · rw [hgs]
          rw [hseq] at hv
          rcases crossVal a0 h0 with hcv | ⟨cst, hcv⟩
          · rw [hcv]
            exact ih3 (by rw [← hcv b]; exact hv)
          · rw [hcv, ← hcv b]
            exact hv

theorem noMatchL_goLine (s : List Char) : noMatchL (goLine s) = true := by
  obtain ⟨h1, h2, -⟩ := goLine_noMatch s.length s (Nat.le_refl _)
  rw [noMatchL, h1, h2]
  rfl

theorem goLine_fix :
    ∀ (n : Nat) (s : List Char), s.length ≤ n → noMatchL s = true →
      goLine s = s := by
  intro n
  induction n with
  | zero =>
    intro s hn _
    have hs : s = [] := List.eq_nil_of_length_eq_zero (Nat.le_zero.mp hn)
    subst hs
    rfl
  | succ n ih =>
    intro s hn h
    have hm : tryMatch s = none := by
      simp only [noMatchL] at h
      cases hmm : tryMatch s with
      | none => rfl
      | some p => rw [hmm] at h; simp at h
    have hS : noMatchS s = true := by
      simp only [noMatchL, hm] at h
      simpa using h
    rw [goLine_eq_none hm]
    cases hsp : splitFirstNl s with
    | none => unfold goSkip; rw [hsp]
    | some q =>
      obtain ⟨a, b⟩ := q
      obtain ⟨a0, h0, ha, hseq⟩ := splitFirstNl_eq_some hsp
      have hgs : goSkip s = a ++ goLine b := by unfold goSkip; rw [hsp]
      rw [hgs]
      rw [hseq, noMatchS_append_nl h0] at hS
      have hb : noMatchL b = true := by simp only [noMatchL]; exact hS
      have hblen : b.length ≤ n := by
        have hsl : s.length = a0.length + (b.length + 1) := by rw [hseq]; simp
        omega
      rw [ih b hblen hb, hseq, ha, List.append_assoc]
      rfl

/-- C7: `maskOAuthConsumerSecret` is idempotent: masking a second time changes
nothing, because the first pass leaves no match of the pattern anywhere in its
output. -/
theorem mask_idempotent (x : String) :
    maskOAuthConsumerSecret (maskOAuthConsumerSecret x) =
      maskOAuthConsumerSecret x := by
  unfold maskOAuthConsumerSecret
  congr 1
  have hdata : (String.mk (goLine x.data)).data = goLine x.data := rfl
  rw [hdata]
  exact goLine_fix (goLine x.data).length _ (Nat.le_refl _) (noMatchL_goLine x.data)

/-- C3 fails as stated: in `"oauthConsumerSecret:\nnull"` no single line
matches the claimed per-line pattern (label then `null` on one line), yet
`mask` rewrites the input, because the `\s` classes of the Go pattern
`(?m)(^\s*oauthConsumerSecret:\s*)null\s*$` also match newlines. -/
theorem mask_not_lineScoped :
    (splitLines "oauthConsumerSecret:\nnull".data).all
        (fun line => !(specLineMatch line)) = true ∧
    maskOAuthConsumerSecret "oauthConsumerSecret:\nnull" ≠
      "oauthConsumerSecret:\nnull" := by
  exact ⟨by decide, by decide⟩

/-- C3 amended: `mask` rewrites the value portion of each match of the
multiline pattern to the fixed masking token, but the pattern's whitespace
classes may cross line boundaries, so the per-line framing does not hold; an
input in which the multiline scan finds no match — in particular one whose
`oauthConsumerSecret` values are populated, non-null strings — is returned
byte-for-byte unchanged. -/
theorem mask_unchanged_of_noMatch (x : String) (h : noMatchL x.data = true) :
    maskOAuthConsumerSecret x = x := by
  unfold maskOAuthConsumerSecret
  rw [goLine_fix x.data.length x.data (Nat.le_refl _) h]

/-- Witness for the amended C3: a file whose secret value is populated (and
which mentions `null` only as a non-secret value) is left unchanged. -/
theorem mask_unchanged_of_noMatch_witness :
    noMatchL "oauthConsumerSecret: s3cr3t\nother: null".data = true ∧
    maskOAuthConsumerSecret "oauthConsumerSecret: s3cr3t\nother: null" =
      "oauthConsumerSecret: s3cr3t\nother: null" := by
  exact ⟨by decide, mask_unchanged_of_noMatch _ (by decide)⟩

end Iamctl
